import Mathlib

/-!
Shallow embedding of `src/vector.h`, a generic growable-array container
(`template <typename T> class Vector`) with manual memory management.

Modelling decisions:

* The state of a `Vector<T>` object is a `Vec α`.  The C++ object holds
  `size_`, `capacity_` and a raw buffer `data_` whose slots `[0, size_)`
  are live constructed elements and whose slots `[size_, capacity_)` are
  raw memory.  Raw memory holds no values, so the model carries the live
  region as a list `data : List α`; the C++ field `size_` is exactly
  `data.length` (exposed as `Size`).  The field `capacity` mirrors
  `capacity_`, and `alloc` mirrors whether `data_` is a non-null pointer
  (`Allocate n` in the source returns `nullptr` iff `n == 0`).

* The container is generic over the element type `T`, whose special member
  functions the container calls.  These are a parameter of the embedding,
  `ElemOps α σ`: `copyC` models the copy constructor `T(const T&)` and
  `defaultC` the default constructor `T()`; both may fail (throw), and they
  thread a state `σ` modelling the environment of the element type (for a
  test element type, a construction counter).  Move construction
  (`T(T&&)`, used by `std::uninitialized_move`) is `noexcept` in the model:
  the destination always receives the source's value, and the source is
  left in the (element-type-specific) moved-from state `movedFrom a`.
  Element destructors are `noexcept` and have no observable effect on the
  model state (a destroyed value is simply dropped).

* Fallible operations return `Except (Vec α × σ) (Vec α × σ)`: `.ok` is
  normal return, `.error` models a C++ exception propagating out of the
  member function, carrying the state the vector object is left in at the
  moment the exception escapes (in C++ the object outlives the throw and
  the caller can observe it).

* `SizeType` is `size_t`; sizes are modelled as `Nat`.  The `2 * capacity_`
  growth step cannot wrap in any reachable state, since an allocation of
  `2^64` bytes can never have succeeded.  Allocation itself is modelled as
  always succeeding; the claims treated here quantify over element
  construction failures, which `σ` models.
-/

namespace VectorSpec

/-- Behaviour of the contained element type `T`: fallible copy construction,
fallible default construction (each threading an element-environment `σ`,
with `.error` modelling a throw), and the moved-from state left in a source
object by `T`'s (noexcept) move constructor. -/
structure ElemOps (α : Type) (σ : Type) where
  copyC : α → σ → Except σ (α × σ)
  defaultC : σ → Except σ (α × σ)
  movedFrom : α → α

/-- State of a `Vector<T>` object: `data` is the live region
`data_[0, size_)` (so `size_` is `data.length`), `capacity` is `capacity_`,
and `alloc` records whether `data_` is a non-null pointer. -/
structure Vec (α : Type) where
  data : List α
  capacity : Nat
  alloc : Bool
deriving DecidableEq, Repr

/-- The C++ member `Size()`, i.e. the field `size_`: the number of live
elements. -/
def Size (v : Vec α) : Nat :=
  v.data.length

/-- The C++ member `Capacity()`. -/
def Capacity (v : Vec α) : Nat :=
  v.capacity

/-- The C++ member `Empty()`. -/
def Empty (v : Vec α) : Bool :=
  Size v == 0

/-- The private helper `Allocate(n)`: returns a non-null pointer iff
`n != 0` (the model keeps only the nullness of the pointer). -/
def allocate (n : Nat) : Bool :=
  n != 0

/-- The result of `std::uninitialized_move(src, src + size_, dst)`: the
destination receives the source values, and each source element is left in
its moved-from state.  Move construction is noexcept in the model. -/
def uninitializedMove (ops : ElemOps α σ) (src : List α) : List α × List α :=
  (src, src.map ops.movedFrom)

/-- The result of `std::uninitialized_copy(first, last, dst)`: copy-construct
each element in order; on a throw the algorithm destroys its partially
constructed prefix and the exception propagates (`.error` carries the
element environment at the throw). -/
def uninitializedCopy (ops : ElemOps α σ) : List α → σ → Except σ (List α × σ)
  | [], s => .ok ([], s)
  | a :: as, s =>
    match ops.copyC a s with
    | .error s₁ => .error s₁
    | .ok (b, s₁) =>
      match uninitializedCopy ops as s₁ with
      | .error s₂ => .error s₂
      | .ok (bs, s₂) => .ok (b :: bs, s₂)

/-- The result of `std::uninitialized_default_construct_n(dst, n)`:
default-construct `n` elements in order, with the same rollback-on-throw
behaviour as `uninitializedCopy`. -/
def uninitializedDefaultN (ops : ElemOps α σ) : Nat → σ → Except σ (List α × σ)
  | 0, s => .ok ([], s)
  | n + 1, s =>
    match ops.defaultC s with
    | .error s₁ => .error s₁
    | .ok (b, s₁) =>
      match uninitializedDefaultN ops n s₁ with
      | .error s₂ => .error s₂
      | .ok (bs, s₂) => .ok (b :: bs, s₂)

/-- The result of `std::uninitialized_fill_n(dst, n, value)`: copy-construct
`n` copies of `value` in order, with the same rollback-on-throw behaviour. -/
def uninitializedFillN (ops : ElemOps α σ) (value : α) : Nat → σ → Except σ (List α × σ)
  | 0, s => .ok ([], s)
  | n + 1, s =>
    match ops.copyC value s with
    | .error s₁ => .error s₁
    | .ok (b, s₁) =>
      match uninitializedFillN ops value n s₁ with
      | .error s₂ => .error s₂
      | .ok (bs, s₂) => .ok (b :: bs, s₂)

/-- The default constructor `Vector()`: `size_ = 0`, `capacity_ = 0`,
`data_ = nullptr`. -/
def MkEmpty : Vec α :=
  { data := [], capacity := 0, alloc := false }

/-- The constructor `Vector(SizeType size)`: allocate `size` slots and
default-construct `size` elements; on a throw the storage is deallocated and
the exception propagates (no object is produced). -/
def MkSized (ops : ElemOps α σ) (size : Nat) (s : σ) : Except σ (Vec α × σ) :=
  match uninitializedDefaultN ops size s with
  | .error s₁ => .error s₁
  | .ok (xs, s₁) => .ok ({ data := xs, capacity := size, alloc := allocate size }, s₁)

/-- The constructor `Vector(SizeType size, const T& value)`: allocate `size`
slots and fill them with copies of `value`; rollback on throw. -/
def MkSizedVal (ops : ElemOps α σ) (size : Nat) (value : α) (s : σ) :
    Except σ (Vec α × σ) :=
  match uninitializedFillN ops value size s with
  | .error s₁ => .error s₁
  | .ok (xs, s₁) => .ok ({ data := xs, capacity := size, alloc := allocate size }, s₁)

/-- The iterator-pair and initializer-list constructors: allocate
`distance(first, last)` slots and copy-construct the range; rollback on
throw.  The source range is given as a list. -/
def MkFromList (ops : ElemOps α σ) (xs : List α) (s : σ) : Except σ (Vec α × σ) :=
  match uninitializedCopy ops xs s with
  | .error s₁ => .error s₁
  | .ok (bs, s₁) => .ok ({ data := bs, capacity := xs.length, alloc := allocate xs.length }, s₁)

/-- The copy constructor `Vector(const Vector&)`: allocate `other.capacity_`
slots and copy-construct the `other.size_` live elements; rollback on
throw. -/
def CopyCtor (ops : ElemOps α σ) (other : Vec α) (s : σ) : Except σ (Vec α × σ) :=
  match uninitializedCopy ops other.data s with
  | .error s₁ => .error s₁
  | .ok (bs, s₁) =>
    .ok ({ data := bs, capacity := other.capacity, alloc := allocate other.capacity }, s₁)

/-- The move constructor `Vector(Vector&&) noexcept`: the new object adopts
`other`'s fields, and `other` is reset to the empty state.  Returns
(constructed object, state `other` is left in). -/
def MoveCtor (other : Vec α) : Vec α × Vec α :=
  (other, MkEmpty)

/-- The copy assignment `operator=(const Vector&)`: on a detected
self-assignment (`this == &other`, modelled by the `self` flag) do nothing;
otherwise build a temporary copy of `other` and swap with it (the old state
is destroyed with the temporary).  On a throw from the copy, `this` is
untouched. -/
def CopyAssign (ops : ElemOps α σ) (this other : Vec α) (self : Bool) (s : σ) :
    Except (Vec α × σ) (Vec α × σ) :=
  if self then .ok (this, s)
  else
    match CopyCtor ops other s with
    | .error s₁ => .error (this, s₁)
    | .ok (tmp, s₁) => .ok (tmp, s₁)

/-- The move assignment `operator=(Vector&&) noexcept`: on self-move
(`this == &other`, the `self` flag) do nothing; otherwise destroy the
current elements, release the storage, adopt `other`'s fields, and reset
`other` to the empty state.  Returns (state of `this`, state of `other`);
on self-move both are the single unchanged object. -/
def MoveAssign (this other : Vec α) (self : Bool) : Vec α × Vec α :=
  if self then (this, other) else (other, MkEmpty)

/-- Error kind of the checked accessor: the `ArrayOutOfRange` exception. -/
inductive VectorErr
  | outOfRange
deriving DecidableEq, Repr

/-- The checked accessor `At(index)`: throws `ArrayOutOfRange` iff
`index >= size_`, else returns `data_[index]`.  It mutates nothing. -/
def At [Inhabited α] (v : Vec α) (index : Nat) : Except VectorErr α :=
  if index ≥ Size v then .error .outOfRange
  else .ok (v.data.getD index default)

/-- The member `Front()`: `data_[0]` (undefined behaviour when empty; the
model returns `default` there, matching no claim). -/
def Front [Inhabited α] (v : Vec α) : α :=
  v.data.getD 0 default

/-- The member `Back()`: `data_[size_ - 1]`. -/
def Back [Inhabited α] (v : Vec α) : α :=
  v.data.getD (Size v - 1) default

/-- The member `Swap(other)`: exchange the three fields. -/
def Swap (a b : Vec α) : Vec α × Vec α :=
  (b, a)

/-- The member `Resize(SizeType new_size)` (default-constructing variant).
Growth path (`new_size > capacity_`): allocate, move the live elements over,
default-construct the gap; on a throw from the gap construction the new
region is destroyed and released and the exception propagates — the old
buffer keeps its (now moved-from) elements and `size_`/`capacity_` are
untouched.  On success the old elements are destroyed, the old buffer
released, and the new buffer adopted.  Shrink path (`new_size < size_`):
destroy the excess tail.  Otherwise default-construct the gap in place
(outside any try/catch: a throw there leaves `size_` and the live prefix
untouched, the algorithm having destroyed its partial constructions). -/
def Resize (ops : ElemOps α σ) (v : Vec α) (newSize : Nat) (s : σ) :
    Except (Vec α × σ) (Vec α × σ) :=
  if newSize > v.capacity then
    let moved := uninitializedMove ops v.data
    match uninitializedDefaultN ops (newSize - Size v) s with
    | .error s₁ => .error ({ v with data := moved.2 }, s₁)
    | .ok (tail, s₁) =>
      .ok ({ data := moved.1 ++ tail, capacity := newSize, alloc := allocate newSize }, s₁)
  else if newSize < Size v then
    .ok ({ v with data := v.data.take newSize }, s)
  else
    match uninitializedDefaultN ops (newSize - Size v) s with
    | .error s₁ => .error (v, s₁)
    | .ok (tail, s₁) => .ok ({ v with data := v.data ++ tail }, s₁)

/-- The member `Resize(SizeType new_size, const T& value)`: identical to
`Resize` but the gap is filled with copies of `value`
(`std::uninitialized_fill_n`). -/
def ResizeVal (ops : ElemOps α σ) (v : Vec α) (newSize : Nat) (value : α) (s : σ) :
    Except (Vec α × σ) (Vec α × σ) :=
  if newSize > v.capacity then
    let moved := uninitializedMove ops v.data
    match uninitializedFillN ops value (newSize - Size v) s with
    | .error s₁ => .error ({ v with data := moved.2 }, s₁)
    | .ok (tail, s₁) =>
      .ok ({ data := moved.1 ++ tail, capacity := newSize, alloc := allocate newSize }, s₁)
  else if newSize < Size v then
    .ok ({ v with data := v.data.take newSize }, s)
  else
    match uninitializedFillN ops value (newSize - Size v) s with
    | .error s₁ => .error (v, s₁)
    | .ok (tail, s₁) => .ok ({ v with data := v.data ++ tail }, s₁)

/-- The member `Reserve(SizeType new_cap)`: if `new_cap > capacity_`,
allocate `new_cap` slots, move the live elements over, destroy the old
elements and release the old buffer; otherwise do nothing.  Only moves are
performed, so the operation is total in the model. -/
def Reserve (ops : ElemOps α σ) (v : Vec α) (newCap : Nat) : Vec α :=
  if newCap > v.capacity then
    { data := (uninitializedMove ops v.data).1, capacity := newCap, alloc := allocate newCap }
  else v

/-- The member `ShrinkToFit()`: if `size_ == 0`, release the buffer
(`data_ = nullptr`, `capacity_ = 0`); else if `size_ < capacity_`,
reallocate to exactly `size_` slots and move the elements over; else do
nothing. -/
def ShrinkToFit (ops : ElemOps α σ) (v : Vec α) : Vec α :=
  if Size v == 0 then { data := [], capacity := 0, alloc := false }
  else if Size v < v.capacity then
    { data := (uninitializedMove ops v.data).1, capacity := Size v, alloc := allocate (Size v) }
  else v

/-- The member `Clear() noexcept`: if `data_` is non-null, destroy the live
elements and set `size_ = 0`; capacity and storage are untouched. -/
def Clear (v : Vec α) : Vec α :=
  if v.alloc then { v with data := [] } else v

/-- The member `PushBack(const T& value)`.  When `size_ == capacity_`: grow
to `capacity_ == 0 ? 1 : capacity_ * 2`, move the live elements into the new
buffer, then copy-construct `value` at the new tail; on a throw from that
copy the new region is destroyed and released and the exception propagates,
leaving `size_`/`capacity_` untouched and the old buffer's elements in
their moved-from states.  Otherwise copy-construct at the tail in place (a
throw there leaves the vector untouched).  `++size_` only on success. -/
def PushBack (ops : ElemOps α σ) (v : Vec α) (value : α) (s : σ) :
    Except (Vec α × σ) (Vec α × σ) :=
  if Size v == v.capacity then
    let newCapacity := if v.capacity == 0 then 1 else v.capacity * 2
    let moved := uninitializedMove ops v.data
    match ops.copyC value s with
    | .error s₁ => .error ({ v with data := moved.2 }, s₁)
    | .ok (x, s₁) =>
      .ok ({ data := moved.1 ++ [x], capacity := newCapacity, alloc := allocate newCapacity }, s₁)
  else
    match ops.copyC value s with
    | .error s₁ => .error (v, s₁)
    | .ok (x, s₁) => .ok ({ v with data := v.data ++ [x] }, s₁)

/-- The member `PushBack(T&& value)`: as `PushBack` but the new tail element
is move-constructed from `value`, which is noexcept in the model, so the
operation is total.  The caller's source object is left moved-from, which
is outside the vector's state. -/
def PushBackMove (ops : ElemOps α σ) (v : Vec α) (value : α) : Vec α :=
  if Size v == v.capacity then
    let newCapacity := if v.capacity == 0 then 1 else v.capacity * 2
    { data := (uninitializedMove ops v.data).1 ++ [value], capacity := newCapacity,
      alloc := allocate newCapacity }
  else { v with data := v.data ++ [value] }

/-- The member `EmplaceBack(Args&&...)`: identical control flow to
`PushBack`, but the new tail element is constructed by
`T(std::forward<Args>(args)...)`, modelled by the fallible constructor
`mk`. -/
def EmplaceBack (ops : ElemOps α σ) (mk : σ → Except σ (α × σ)) (v : Vec α) (s : σ) :
    Except (Vec α × σ) (Vec α × σ) :=
  if Size v == v.capacity then
    let newCapacity := if v.capacity == 0 then 1 else v.capacity * 2
    let moved := uninitializedMove ops v.data
    match mk s with
    | .error s₁ => .error ({ v with data := moved.2 }, s₁)
    | .ok (x, s₁) =>
      .ok ({ data := moved.1 ++ [x], capacity := newCapacity, alloc := allocate newCapacity }, s₁)
  else
    match mk s with
    | .error s₁ => .error (v, s₁)
    | .ok (x, s₁) => .ok ({ v with data := v.data ++ [x] }, s₁)

/-- The member `PopBack()`: if non-empty, destroy the tail element and
decrement `size_`; no-op on an empty vector. -/
def PopBack (v : Vec α) : Vec α :=
  if Size v > 0 then { v with data := v.data.dropLast } else v

/-- The helper of `operator==`: `std::equal(data_, data_ + size_,
other.data_)` with the element `operator==` given as `eq` (it is only
invoked after the length check, so both ranges are in bounds). -/
def listEqual (eq : α → α → Bool) : List α → List α → Bool
  | [], _ => true
  | _ :: _, [] => false
  | a :: as, b :: bs => eq a b && listEqual eq as bs

/-- The member `operator==`: `size_ == other.size_ && std::equal(...)`. -/
def vecEq (eq : α → α → Bool) (a b : Vec α) : Bool :=
  Size a == Size b && listEqual eq a.data b.data

/-- The member `operator!=`: `!(*this == other)`. -/
def vecNe (eq : α → α → Bool) (a b : Vec α) : Bool :=
  !vecEq eq a b

/-- The algorithm `std::lexicographical_compare(first1, last1, first2,
last2, comp)` with the element `operator<` given as `lt`: true iff the
first range is lexicographically less than the second. -/
def lexCompare (lt : α → α → Bool) : List α → List α → Bool
  | _, [] => false
  | [], _ :: _ => true
  | a :: as, b :: bs =>
    if lt a b then true
    else if lt b a then false
    else lexCompare lt as bs

/-- The member `operator<`: `std::lexicographical_compare` over the two
live regions. -/
def vecLt (lt : α → α → Bool) (a b : Vec α) : Bool :=
  lexCompare lt a.data b.data

/-- The member `operator>`: `other < *this`. -/
def vecGt (lt : α → α → Bool) (a b : Vec α) : Bool :=
  vecLt lt b a

/-- The member `operator<=`: `!(other < *this)`. -/
def vecLe (lt : α → α → Bool) (a b : Vec α) : Bool :=
  !vecLt lt b a

/-- The member `operator>=`: `!(*this < other)`. -/
def vecGe (lt : α → α → Bool) (a b : Vec α) : Bool :=
  !vecLt lt a b

/-! ### Concrete element types for instantiating the generic container

The spec's §8 asks growth-failure behaviour to be checked "via an element
type that can be made to fail on a chosen construction count".  `SElem` is
such a type, with string-like move semantics: copy and default construction
each consume one tick of a construction budget (the environment `σ := Nat`
counts constructions, and construction fails once the count reaches the
budget), and a moved-from `SElem` is left empty (`val = 0`), as a
moved-from `std::string` is. -/

/-- A fallible, movable element type: `val` is its payload. -/
structure SElem where
  val : Nat
deriving DecidableEq, Repr

/-- Element operations for `SElem` with construction budget `budget`:
the `σ := Nat` state counts constructions so far; copy and default
construction throw once the count reaches the budget; move leaves the
source empty (string-like). -/
def countedOps (budget : Nat) : ElemOps SElem Nat where
  copyC a s := if s < budget then .ok (a, s + 1) else .error s
  defaultC s := if s < budget then .ok (⟨0⟩, s + 1) else .error s
  movedFrom _ := ⟨0⟩

/-- Element operations for `SElem` with the same counted construction
budget but value-preserving moves (as for a trivially copyable type, whose
move is a copy that leaves the source unchanged). -/
def countedOpsKeep (budget : Nat) : ElemOps SElem Nat where
  copyC a s := if s < budget then .ok (a, s + 1) else .error s
  defaultC s := if s < budget then .ok (⟨0⟩, s + 1) else .error s
  movedFrom a := a

/-- Element operations for a plain `Nat` element (trivially copyable:
construction never fails, moving is copying, no environment). -/
def natOps : ElemOps Nat Unit where
  copyC a s := .ok (a, s)
  defaultC s := .ok (0, s)
  movedFrom a := a

/-- The copy constructor of the element type produces an equal value
whenever it succeeds (the C++ semantic contract of `T(const T&)`). -/
def CopyFaithful (ops : ElemOps α σ) : Prop :=
  ∀ a s b s₁, ops.copyC a s = .ok (b, s₁) → b = a

/-- The element type's move constructor leaves its source unchanged (true
for trivially copyable types, where moving is copying). -/
def MovePreserving (ops : ElemOps α σ) : Prop :=
  ∀ a, ops.movedFrom a = a

/-- The representation invariant of `Vector<T>` stated by the spec:
`0 ≤ length ≤ capacity` (the lower bound is inherent in `Nat`), and the
object holds an allocation (non-null `data_`) only when `capacity_ > 0`. -/
def Inv (v : Vec α) : Prop :=
  Size v ≤ v.capacity ∧ (v.alloc = true → 0 < v.capacity)

instance (v : Vec α) : Decidable (Inv v) := by
  unfold Inv; infer_instance

/-! ### Lemmas about the `std::uninitialized_*` helpers -/

theorem uninitializedCopy_ok_length (ops : ElemOps α σ) (xs : List α) (s : σ)
    (bs : List α) (s₁ : σ) (h : uninitializedCopy ops xs s = .ok (bs, s₁)) :
    bs.length = xs.length := by
  induction xs generalizing s bs s₁ with
  | nil => simp [uninitializedCopy] at h; simp [h.1]
  | cons a as ih =>
    simp only [uninitializedCopy] at h
    split at h
    · simp at h
    · rename_i b sb hc
      split at h
      · simp at h
      · rename_i cs sc hr
        simp only [Except.ok.injEq, Prod.mk.injEq] at h
        obtain ⟨h1, -⟩ := h
        subst h1
        simp [ih sb cs sc hr]

theorem uninitializedCopy_ok_faithful (ops : ElemOps α σ) (hf : CopyFaithful ops)
    (xs : List α) (s : σ) (bs : List α) (s₁ : σ)
    (h : uninitializedCopy ops xs s = .ok (bs, s₁)) : bs = xs := by
  induction xs generalizing s bs s₁ with
  | nil => simp [uninitializedCopy] at h; simp [h.1]
  | cons a as ih =>
    simp only [uninitializedCopy] at h
    split at h
    · simp at h
    · rename_i b sb hc
      split at h
      · simp at h
      · rename_i cs sc hr
        simp only [Except.ok.injEq, Prod.mk.injEq] at h
        obtain ⟨h1, -⟩ := h
        subst h1
        rw [hf a s b sb hc, ih sb cs sc hr]

theorem uninitializedDefaultN_ok_length (ops : ElemOps α σ) (n : Nat) (s : σ)
    (bs : List α) (s₁ : σ) (h : uninitializedDefaultN ops n s = .ok (bs, s₁)) :
    bs.length = n := by
  induction n generalizing s bs s₁ with
  | zero => simp [uninitializedDefaultN] at h; simp [h.1]
  | succ n ih =>
    simp only [uninitializedDefaultN] at h
    split at h
    · simp at h
    · rename_i b sb hc
      split at h
      · simp at h
      · rename_i cs sc hr
        simp only [Except.ok.injEq, Prod.mk.injEq] at h
        obtain ⟨h1, -⟩ := h
        subst h1
        simp [ih sb cs sc hr]

theorem uninitializedFillN_ok_faithful (ops : ElemOps α σ) (hf : CopyFaithful ops)
    (value : α) (n : Nat) (s : σ) (bs : List α) (s₁ : σ)
    (h : uninitializedFillN ops value n s = .ok (bs, s₁)) :
    bs = List.replicate n value := by
  induction n generalizing s bs s₁ with
  | zero => simp [uninitializedFillN] at h; simp [h.1]
  | succ n ih =>
    simp only [uninitializedFillN] at h
    split at h
    · simp at h
    · rename_i b sb hc
      split at h
      · simp at h
      · rename_i cs sc hr
        simp only [Except.ok.injEq, Prod.mk.injEq] at h
        obtain ⟨h1, -⟩ := h
        subst h1
        rw [List.replicate_succ, hf value s b sb hc, ih sb cs sc hr]

theorem uninitializedFillN_ok_length (ops : ElemOps α σ) (value : α) (n : Nat)
    (s : σ) (bs : List α) (s₁ : σ)
    (h : uninitializedFillN ops value n s = .ok (bs, s₁)) : bs.length = n := by
  induction n generalizing s bs s₁ with
  | zero => simp [uninitializedFillN] at h; simp [h.1]
  | succ n ih =>
    simp only [uninitializedFillN] at h
    split at h
    · simp at h
    · rename_i b sb hc
      split at h
      · simp at h
      · rename_i cs sc hr
        simp only [Except.ok.injEq, Prod.mk.injEq] at h
        obtain ⟨h1, -⟩ := h
        subst h1
        simp [ih sb cs sc hr]

@[simp]
theorem Size_mk (xs : List α) (c : Nat) (a : Bool) :
    Size { data := xs, capacity := c, alloc := a } = xs.length := rfl

/-- Concrete vector used to exercise the checked accessor. -/
def vNat12 : Vec Nat :=
  { data := [10, 20], capacity := 2, alloc := true }

/-- C2: `At(i)` raises the `OutOfRange` error if and only if `i >= size_`
(including `i = size_`, and `i = 0` on an empty vector); when `i < size_` it
returns element `i`.  `At` reads but never writes the object, so the vector
is unchanged whenever the error is raised (in the model `At` is a pure
function of the vector). -/
theorem at_out_of_range_iff {α : Type} [Inhabited α] :
    ∀ (v : Vec α) (i : Nat),
      (At v i = .error .outOfRange ↔ Size v ≤ i) ∧
      (∀ h : i < Size v, At v i = .ok (v.data.get ⟨i, h⟩)) := by
  intro v i
  refine ⟨⟨fun h => ?_, fun h => by simp [At, h]⟩, fun h => ?_⟩
  · by_contra hlt
    push_neg at hlt
    simp [At, Nat.not_le.mpr hlt] at h
  · have hle : ¬ i ≥ Size v := Nat.not_le.mpr h
    simp only [At, if_neg hle]
    congr 1
    exact (List.getD_eq_getElem _ _ h).trans (List.get_eq_getElem v.data ⟨i, h⟩).symm

/-- Instantiation of `at_out_of_range_iff`: on the two-element vector
`[10, 20]`, `At 2` raises `OutOfRange` and `At 1` returns `20`; on the empty
vector, `At 0` raises `OutOfRange`. -/
theorem at_out_of_range_iff_witness :
    At vNat12 2 = .error .outOfRange ∧
    At vNat12 1 = .ok 20 ∧
    At (MkEmpty : Vec Nat) 0 = .error .outOfRange := by
  refine ⟨(at_out_of_range_iff vNat12 2).1.mpr (by decide), ?_, ?_⟩
  · have h := (at_out_of_range_iff vNat12 1).2 (by decide)
    simpa [vNat12] using h
  · exact (at_out_of_range_iff (MkEmpty : Vec Nat) 0).1.mpr (by decide)

/-- C6: move construction and move assignment are total functions of the
model (never fail), the destination receives exactly the source's prior
state, the source is left in the empty state (`size_ = 0`, `capacity_ = 0`,
null `data_`), and self-move-assignment (detected by the identity check,
the `self` flag) changes nothing. -/
theorem move_semantics {α : Type} :
    ∀ (dst src : Vec α),
      (MoveCtor src).1 = src ∧
      (MoveCtor src).2 = MkEmpty ∧
      (MoveAssign dst src false).1 = src ∧
      (MoveAssign dst src false).2 = MkEmpty ∧
      MoveAssign dst dst true = (dst, dst) ∧
      Size (MkEmpty : Vec α) = 0 ∧ (MkEmpty : Vec α).capacity = 0 ∧
      (MkEmpty : Vec α).alloc = false := by
  intro dst src
  simp [MoveCtor, MoveAssign, MkEmpty, Size]

/-- C9: a successful `ShrinkToFit` leaves the length and the element values
unchanged and makes the capacity equal to the length; when `size_ == 0` the
storage is released entirely (`capacity_ = 0`, null `data_`); when
`size_ == capacity_` nothing changes at all. -/
theorem shrinkToFit_spec {α σ : Type} (ops : ElemOps α σ) (v : Vec α)
    (hinv : Inv v) :
    (ShrinkToFit ops v).data = v.data ∧
    Size (ShrinkToFit ops v) = Size v ∧
    (ShrinkToFit ops v).capacity = Size v ∧
    (Size v = 0 → (ShrinkToFit ops v).alloc = false) ∧
    (Size v = v.capacity → ShrinkToFit ops v = v) := by
  obtain ⟨hlen, halloc⟩ := hinv
  obtain ⟨d, c, a⟩ := v
  simp only [Size_mk] at hlen ⊢
  by_cases h0 : d.length = 0
  · have hd : d = [] := List.length_eq_zero.mp h0
    subst hd
    simp only [ShrinkToFit, Size_mk, List.length_nil]
    rw [if_pos (by simp)]
    refine ⟨rfl, rfl, rfl, fun _ => rfl, fun hc => ?_⟩
    have hc0 : c = 0 := hc.symm
    subst hc0
    have ha : a = false := by
      cases a
      · rfl
      · exact absurd (halloc rfl) (by simp)
    subst ha
    rfl
  · by_cases hlt : d.length < c
    · simp only [ShrinkToFit, Size_mk, uninitializedMove]
      rw [if_neg (by simp [h0]), if_pos hlt]
      exact ⟨rfl, rfl, rfl, fun h => absurd h h0, fun hc => absurd hc (Nat.ne_of_lt hlt)⟩
    · have hc : d.length = c := Nat.le_antisymm hlen (Nat.not_lt.mp hlt)
      simp only [ShrinkToFit, Size_mk]
      rw [if_neg (by simp [h0]), if_neg hlt]
      exact ⟨rfl, rfl, hc.symm, fun h => absurd h h0, fun _ => rfl⟩

/-- Instantiation of `shrinkToFit_spec`: shrinking `[7]` held with capacity
`3` gives capacity `1` with the element kept. -/
theorem shrinkToFit_spec_witness :
    Inv { data := [7], capacity := 3, alloc := true } ∧
    (ShrinkToFit natOps { data := [7], capacity := 3, alloc := true }).data = [7] ∧
    (ShrinkToFit natOps { data := [7], capacity := 3, alloc := true }).capacity = 1 := by
  refine ⟨by decide, ?_, ?_⟩
  · exact (shrinkToFit_spec natOps { data := [7], capacity := 3, alloc := true } (by decide)).1
  · exact (shrinkToFit_spec natOps { data := [7], capacity := 3, alloc := true } (by decide)).2.2.1

/-- C10: any successful `Reserve(n)` or `Resize(n)`/`Resize(n, value)` call
with `n` strictly above the current capacity leaves the capacity exactly
`n` (these paths apply no doubling or rounding, unlike `PushBack`), and
`Reserve(n)` with `n ≤ capacity_` changes nothing at all. -/
theorem grow_exact_capacity {α σ : Type} :
    (∀ (ops : ElemOps α σ) (v : Vec α) (n : Nat), v.capacity < n →
      (Reserve ops v n).capacity = n) ∧
    (∀ (ops : ElemOps α σ) (v : Vec α) (n : Nat), n ≤ v.capacity →
      Reserve ops v n = v) ∧
    (∀ (ops : ElemOps α σ) (v : Vec α) (n : Nat) (s : σ) (v' : Vec α) (s₁ : σ),
      v.capacity < n → Resize ops v n s = .ok (v', s₁) → v'.capacity = n) ∧
    (∀ (ops : ElemOps α σ) (v : Vec α) (n : Nat) (value : α) (s : σ) (v' : Vec α) (s₁ : σ),
      v.capacity < n → ResizeVal ops v n value s = .ok (v', s₁) → v'.capacity = n) := by
  refine ⟨fun ops v n hgt => ?_, fun ops v n hle => ?_, ?_, ?_⟩
  · simp [Reserve, hgt]
  · simp [Reserve, Nat.not_lt.mpr hle]
  · intro ops v n s v' s₁ hgt h
    simp only [Resize, if_pos hgt] at h
    split at h
    · simp at h
    · rename_i tail s₂ hd
      simp only [Except.ok.injEq, Prod.mk.injEq] at h
      obtain ⟨h1, -⟩ := h
      subst h1
      rfl
  · intro ops v n value s v' s₁ hgt h
    simp only [ResizeVal, if_pos hgt] at h
    split at h
    · simp at h
    · rename_i tail s₂ hd
      simp only [Except.ok.injEq, Prod.mk.injEq] at h
      obtain ⟨h1, -⟩ := h
      subst h1
      rfl

/-- Instantiation of `grow_exact_capacity`: growing the empty vector to
capacity `5` by `Reserve` and to length `3` by `Resize` gives capacities
exactly `5` and `3`. -/
theorem grow_exact_capacity_witness :
    (Reserve natOps (MkEmpty : Vec Nat) 5).capacity = 5 ∧
    Reserve natOps vNat12 2 = vNat12 ∧
    Resize natOps (MkEmpty : Vec Nat) 3 () =
      .ok ({ data := [0, 0, 0], capacity := 3, alloc := true }, ()) ∧
    ({ data := [0, 0, 0], capacity := 3, alloc := true } : Vec Nat).capacity = 3 := by
  refine ⟨grow_exact_capacity.1 natOps MkEmpty 5 (by decide),
    grow_exact_capacity.2.1 natOps vNat12 2 (by decide), rfl, ?_⟩
  exact grow_exact_capacity.2.2.1 natOps MkEmpty 3 () _ () (by decide) rfl

/-- The growth step of `PushBack`/`EmplaceBack`
(`capacity_ == 0 ? 1 : capacity_ * 2`) equals `max 1 (2 * capacity_)`. -/
theorem newCapacity_eq_max (c : Nat) :
    (if c == 0 then 1 else c * 2) = max 1 (2 * c) := by
  cases c with
  | zero => decide
  | succ k =>
    rw [if_neg (by simp)]
    omega

/-- The copy constructor of `natOps` is an exact copy. -/
theorem natOps_copyFaithful : CopyFaithful natOps := by
  intro a s b s₁ h
  simp [natOps] at h
  exact h.symm

/-- The copy constructor of `countedOpsKeep 0` never succeeds, so it is
vacuously an exact copy. -/
theorem countedOpsKeep_zero_copyFaithful : CopyFaithful (countedOpsKeep 0) := by
  intro a s b s₁ h
  simp only [countedOpsKeep] at h
  rw [if_neg (Nat.not_lt_zero s)] at h
  cases h

/-- Moves of `countedOpsKeep` elements keep the source value. -/
theorem countedOpsKeep_movePreserving (budget : Nat) :
    MovePreserving (countedOpsKeep budget) := fun _ => rfl

/-- Moves of `natOps` elements keep the source value. -/
theorem natOps_movePreserving : MovePreserving natOps := fun _ => rfl

/-- A successful `PushBack(const T&)` appends the copy-constructed value,
increments the length, and applies the doubling growth rule exactly when
the vector was full. -/
theorem pushBack_ok_spec (ops : ElemOps α σ)
    (v : Vec α) (value : α) (s : σ) (v' : Vec α) (s₁ : σ)
    (h : PushBack ops v value s = .ok (v', s₁)) :
    (∃ x s₂, ops.copyC value s = .ok (x, s₂) ∧ v'.data = v.data ++ [x]) ∧
    v'.capacity = (if Size v = v.capacity then max 1 (2 * v.capacity) else v.capacity) ∧
    v'.alloc = (if Size v = v.capacity then true else v.alloc) := by
  simp only [PushBack, uninitializedMove] at h
  split at h
  · rename_i hfull
    have hfull' : Size v = v.capacity := by simpa using hfull
    split at h
    · simp at h
    · rename_i x sx hc
      simp only [Except.ok.injEq, Prod.mk.injEq] at h
      obtain ⟨h1, -⟩ := h
      subst h1
      refine ⟨⟨x, sx, hc, rfl⟩, ?_, ?_⟩
      · simp only [if_pos hfull']
        exact newCapacity_eq_max v.capacity
      · simp only [if_pos hfull', allocate]
        cases hcap : v.capacity <;> simp
  · rename_i hfull
    have hfull' : ¬ Size v = v.capacity := by simpa using hfull
    split at h
    · simp at h
    · rename_i x sx hc
      simp only [Except.ok.injEq, Prod.mk.injEq] at h
      obtain ⟨h1, -⟩ := h
      subst h1
      exact ⟨⟨x, sx, hc, rfl⟩, by simp [if_neg hfull'], by simp [if_neg hfull']⟩

/-- Under the copy contract, a successful `PushBack(const T&)` appends
exactly the pushed value. -/
theorem pushBack_ok_data (ops : ElemOps α σ) (hf : CopyFaithful ops)
    (v : Vec α) (value : α) (s : σ) (v' : Vec α) (s₁ : σ)
    (h : PushBack ops v value s = .ok (v', s₁)) :
    v'.data = v.data ++ [value] := by
  obtain ⟨⟨x, s₂, hc, hd⟩, -, -⟩ := pushBack_ok_spec ops v value s v' s₁ h
  rw [hd, hf value s x s₂ hc]

/-- `PushBack(T&&)` never fails; it appends the moved-in value, increments
the length, and applies the same growth rule. -/
theorem pushBackMove_spec (ops : ElemOps α σ) (v : Vec α) (value : α) :
    (PushBackMove ops v value).data = v.data ++ [value] ∧
    (PushBackMove ops v value).capacity =
      (if Size v = v.capacity then max 1 (2 * v.capacity) else v.capacity) ∧
    (PushBackMove ops v value).alloc = (if Size v = v.capacity then true else v.alloc) := by
  by_cases hfull : Size v = v.capacity
  · simp only [PushBackMove, uninitializedMove]
    rw [if_pos (by simpa using hfull)]
    refine ⟨rfl, ?_, ?_⟩
    · simp only [if_pos hfull]
      exact newCapacity_eq_max v.capacity
    · simp only [if_pos hfull, allocate]
      cases hcap : v.capacity <;> simp
  · simp only [PushBackMove]
    rw [if_neg (by simpa using hfull)]
    exact ⟨rfl, by simp [if_neg hfull], by simp [if_neg hfull]⟩

/-- A sequence of `PushBack(const T&)` calls, stopping at the first
failure. -/
def pushAll (ops : ElemOps α σ) : List α → Vec α → σ → Except (Vec α × σ) (Vec α × σ)
  | [], v, s => .ok (v, s)
  | x :: xs, v, s =>
    match PushBack ops v x s with
    | .error r => .error r
    | .ok (v₁, s₁) => pushAll ops xs v₁ s₁

/-- A successful pushAll appends exactly the pushed values in order. -/
theorem pushAll_ok_data (ops : ElemOps α σ) (hf : CopyFaithful ops) :
    ∀ (xs : List α) (v : Vec α) (s : σ) (v' : Vec α) (s₁ : σ),
      pushAll ops xs v s = .ok (v', s₁) → v'.data = v.data ++ xs := by
  intro xs
  induction xs with
  | nil =>
    intro v s v' s₁ h
    simp [pushAll] at h
    simp [h.1]
  | cons x xs ih =>
    intro v s v' s₁ h
    simp only [pushAll] at h
    split at h
    · simp at h
    · rename_i v₁ s₂ hp
      have hd := pushBack_ok_data ops hf v x s v₁ s₂ hp
      rw [ih v₁ s₂ v' s₁ h, hd, List.append_assoc]
      rfl

/-- C3: a successful `PushBack(value)` (either overload) leaves
`size_ = n + 1` with element `n` equal to `value` and elements `0..n-1`
unchanged (the data list becomes `data ++ [value]`); the new capacity is
`max(1, 2*capacity_)` when the vector was full and unchanged otherwise; and
any sequence of `N` successful `PushBack` calls starting from the empty
vector yields `size_ = N` with element `i` the `i`-th pushed value.
`CopyFaithful` states the C++ contract that `T`'s copy constructor
reproduces the source value. -/
theorem pushBack_spec {α σ : Type} :
    (∀ (ops : ElemOps α σ), CopyFaithful ops →
      ∀ (v : Vec α) (value : α) (s : σ) (v' : Vec α) (s₁ : σ),
        PushBack ops v value s = .ok (v', s₁) →
        Size v' = Size v + 1 ∧ v'.data = v.data ++ [value] ∧
        v'.capacity = (if Size v = v.capacity then max 1 (2 * v.capacity) else v.capacity)) ∧
    (∀ (ops : ElemOps α σ) (v : Vec α) (value : α),
      Size (PushBackMove ops v value) = Size v + 1 ∧
      (PushBackMove ops v value).data = v.data ++ [value] ∧
      (PushBackMove ops v value).capacity =
        (if Size v = v.capacity then max 1 (2 * v.capacity) else v.capacity)) ∧
    (∀ (ops : ElemOps α σ), CopyFaithful ops →
      ∀ (xs : List α) (s : σ) (v' : Vec α) (s₁ : σ),
        pushAll ops xs MkEmpty s = .ok (v', s₁) →
        Size v' = xs.length ∧ v'.data = xs) := by
  refine ⟨fun ops hf v value s v' s₁ h => ?_, fun ops v value => ?_, fun ops hf xs s v' s₁ h => ?_⟩
  · have hd := pushBack_ok_data ops hf v value s v' s₁ h
    have hc := (pushBack_ok_spec ops v value s v' s₁ h).2.1
    exact ⟨by simp [Size, hd], hd, hc⟩
  · obtain ⟨hd, hc, -⟩ := pushBackMove_spec ops v value
    exact ⟨by simp [Size, hd], hd, hc⟩
  · have hd := pushAll_ok_data ops hf xs MkEmpty s v' s₁ h
    simp only [MkEmpty, List.nil_append] at hd
    exact ⟨by simp [Size, hd], hd⟩

/-- Instantiation of `pushBack_spec`: pushing `30` onto the full two-element
vector `[10, 20]` succeeds with contents `[10, 20, 30]` and doubled
capacity, and pushing `1, 2, 3` onto the empty vector yields exactly
`[1, 2, 3]`. -/
theorem pushBack_spec_witness :
    PushBack natOps vNat12 30 () =
      .ok ({ data := [10, 20, 30], capacity := 4, alloc := true }, ()) ∧
    Size ({ data := [10, 20, 30], capacity := 4, alloc := true } : Vec Nat) = Size vNat12 + 1 ∧
    pushAll natOps [1, 2, 3] MkEmpty () =
      .ok ({ data := [1, 2, 3], capacity := 4, alloc := true }, ()) ∧
    ({ data := [1, 2, 3], capacity := 4, alloc := true } : Vec Nat).data = [1, 2, 3] := by
  refine ⟨rfl, ?_, rfl, ?_⟩
  · exact (pushBack_spec.1 natOps natOps_copyFaithful vNat12 30 ()
      { data := [10, 20, 30], capacity := 4, alloc := true } () rfl).1
  · exact (pushBack_spec.2.2 natOps natOps_copyFaithful [1, 2, 3] ()
      { data := [1, 2, 3], capacity := 4, alloc := true } () rfl).2

/-- Under `MovePreserving`, moving a whole buffer leaves the source values
unchanged. -/
theorem map_movedFrom_eq (ops : ElemOps α σ) (hm : MovePreserving ops) (l : List α) :
    l.map ops.movedFrom = l := by
  induction l with
  | nil => rfl
  | cons a as ih => simp [hm a, ih]

/-- A successful `Resize(n)` ends with `size_ = n`; above capacity it
reallocates to exactly `n` and appends the default-constructed gap, below
the length it truncates in place, and in between it appends the
default-constructed gap in place. -/
theorem resize_ok_spec (ops : ElemOps α σ) (v : Vec α) (n : Nat) (s : σ)
    (v' : Vec α) (s₁ : σ) (hsz : Size v ≤ v.capacity)
    (h : Resize ops v n s = .ok (v', s₁)) :
    Size v' = n ∧
    (v.capacity < n →
      v'.capacity = n ∧ v'.alloc = true ∧
      ∃ ds s₂, uninitializedDefaultN ops (n - Size v) s = .ok (ds, s₂) ∧
        v'.data = v.data ++ ds) ∧
    (n < Size v → v' = { v with data := v.data.take n }) ∧
    (Size v ≤ n → n ≤ v.capacity →
      v'.capacity = v.capacity ∧ v'.alloc = v.alloc ∧
      ∃ ds s₂, uninitializedDefaultN ops (n - Size v) s = .ok (ds, s₂) ∧
        v'.data = v.data ++ ds) := by
  simp only [Size] at hsz ⊢
  simp only [Resize, uninitializedMove, Size] at h
  split at h
  · rename_i hgt
    split at h
    · simp at h
    · rename_i ds s₂ hds
      simp only [Except.ok.injEq, Prod.mk.injEq] at h
      obtain ⟨h1, -⟩ := h
      subst h1
      have hlen : ds.length = n - v.data.length :=
        uninitializedDefaultN_ok_length ops _ s ds s₂ hds
      refine ⟨?_, fun _ => ⟨rfl, ?_, ds, s₂, hds, rfl⟩,
        fun hlt => absurd hlt (by omega), fun _ hle => absurd hgt (by omega)⟩
      · simp only [List.length_append, hlen]
        omega
      · simp only [allocate, bne_iff_ne, ne_eq]
        omega
  · rename_i hng
    split at h
    · rename_i hlt
      simp only [Except.ok.injEq, Prod.mk.injEq] at h
      obtain ⟨h1, -⟩ := h
      subst h1
      exact ⟨by simp only [List.length_take]; omega, fun hgt => absurd hgt hng,
        fun _ => rfl, fun hge _ => absurd hlt (by omega)⟩
    · rename_i hge
      split at h
      · simp at h
      · rename_i ds s₂ hds
        simp only [Except.ok.injEq, Prod.mk.injEq] at h
        obtain ⟨h1, -⟩ := h
        subst h1
        have hlen : ds.length = n - v.data.length :=
          uninitializedDefaultN_ok_length ops _ s ds s₂ hds
        refine ⟨?_, fun hgt => absurd hgt hng, fun hlt => absurd hlt hge,
          fun _ _ => ⟨rfl, rfl, ds, s₂, hds, rfl⟩⟩
        simp only [List.length_append, hlen]
        omega

/-- A successful `Resize(n, value)` has the same shape with the gap filled
by copies of `value`. -/
theorem resizeVal_ok_spec (ops : ElemOps α σ) (v : Vec α) (n : Nat) (value : α)
    (s : σ) (v' : Vec α) (s₁ : σ) (hsz : Size v ≤ v.capacity)
    (h : ResizeVal ops v n value s = .ok (v', s₁)) :
    Size v' = n ∧
    (v.capacity < n →
      v'.capacity = n ∧ v'.alloc = true ∧
      ∃ ds s₂, uninitializedFillN ops value (n - Size v) s = .ok (ds, s₂) ∧
        v'.data = v.data ++ ds) ∧
    (n < Size v → v' = { v with data := v.data.take n }) ∧
    (Size v ≤ n → n ≤ v.capacity →
      v'.capacity = v.capacity ∧ v'.alloc = v.alloc ∧
      ∃ ds s₂, uninitializedFillN ops value (n - Size v) s = .ok (ds, s₂) ∧
        v'.data = v.data ++ ds) := by
  simp only [Size] at hsz ⊢
  simp only [ResizeVal, uninitializedMove, Size] at h
  split at h
  · rename_i hgt
    split at h
    · simp at h
    · rename_i ds s₂ hds
      simp only [Except.ok.injEq, Prod.mk.injEq] at h
      obtain ⟨h1, -⟩ := h
      subst h1
      have hlen : ds.length = n - v.data.length :=
        uninitializedFillN_ok_length ops value _ s ds s₂ hds
      refine ⟨?_, fun _ => ⟨rfl, ?_, ds, s₂, hds, rfl⟩,
        fun hlt => absurd hlt (by omega), fun _ hle => absurd hgt (by omega)⟩
      · simp only [List.length_append, hlen]
        omega
      · simp only [allocate, bne_iff_ne, ne_eq]
        omega
  · rename_i hng
    split at h
    · rename_i hlt
      simp only [Except.ok.injEq, Prod.mk.injEq] at h
      obtain ⟨h1, -⟩ := h
      subst h1
      exact ⟨by simp only [List.length_take]; omega, fun hgt => absurd hgt hng,
        fun _ => rfl, fun hge _ => absurd hlt (by omega)⟩
    · rename_i hge
      split at h
      · simp at h
      · rename_i ds s₂ hds
        simp only [Except.ok.injEq, Prod.mk.injEq] at h
        obtain ⟨h1, -⟩ := h
        subst h1
        have hlen : ds.length = n - v.data.length :=
          uninitializedFillN_ok_length ops value _ s ds s₂ hds
        refine ⟨?_, fun hgt => absurd hgt hng, fun hlt => absurd hlt hge,
          fun _ _ => ⟨rfl, rfl, ds, s₂, hds, rfl⟩⟩
        simp only [List.length_append, hlen]
        omega

/-- C4: a successful `Resize(n)` (resp. `Resize(n, value)`) finishes with
`size_ = n`: above the capacity it grows (to capacity exactly `n`) and
fills the new slots with default-constructed elements (resp. copies of
`value`); below the length it destroys exactly the excess tail, leaving
elements `0..n-1`, the capacity, and the storage unchanged; and in between
it constructs only the gap `[size_, n)` in place.  The default-constructed
gap is characterised as the output of the `uninitialized_default_construct_n`
run; the value-filled gap is `replicate (n - size_) value` given the C++
copy contract `CopyFaithful`. -/
theorem resize_spec {α σ : Type} :
    (∀ (ops : ElemOps α σ) (v : Vec α) (n : Nat) (s : σ) (v' : Vec α) (s₁ : σ), Inv v →
      Resize ops v n s = .ok (v', s₁) →
      Size v' = n ∧
      (v.capacity < n → v'.capacity = n ∧
        ∃ ds s₂, uninitializedDefaultN ops (n - Size v) s = .ok (ds, s₂) ∧
          v'.data = v.data ++ ds) ∧
      (n < Size v → v' = { v with data := v.data.take n }) ∧
      (Size v ≤ n → n ≤ v.capacity → v'.capacity = v.capacity ∧
        ∃ ds s₂, uninitializedDefaultN ops (n - Size v) s = .ok (ds, s₂) ∧
          v'.data = v.data ++ ds)) ∧
    (∀ (ops : ElemOps α σ), CopyFaithful ops →
      ∀ (v : Vec α) (n : Nat) (value : α) (s : σ) (v' : Vec α) (s₁ : σ), Inv v →
      ResizeVal ops v n value s = .ok (v', s₁) →
      Size v' = n ∧
      (v.capacity < n → v'.capacity = n ∧
        v'.data = v.data ++ List.replicate (n - Size v) value) ∧
      (n < Size v → v' = { v with data := v.data.take n }) ∧
      (Size v ≤ n → n ≤ v.capacity → v'.capacity = v.capacity ∧
        v'.data = v.data ++ List.replicate (n - Size v) value)) := by
  constructor
  · intro ops v n s v' s₁ hinv h
    obtain ⟨h1, h2, h3, h4⟩ := resize_ok_spec ops v n s v' s₁ hinv.1 h
    exact ⟨h1, fun hgt => ⟨(h2 hgt).1, (h2 hgt).2.2⟩, h3,
      fun ha hb => ⟨(h4 ha hb).1, (h4 ha hb).2.2⟩⟩
  · intro ops hf v n value s v' s₁ hinv h
    obtain ⟨h1, h2, h3, h4⟩ := resizeVal_ok_spec ops v n value s v' s₁ hinv.1 h
    refine ⟨h1, fun hgt => ?_, h3, fun ha hb => ?_⟩
    · obtain ⟨hc, -, ds, s₂, hds, hdata⟩ := h2 hgt
      rw [uninitializedFillN_ok_faithful ops hf value _ s ds s₂ hds] at hdata
      exact ⟨hc, hdata⟩
    · obtain ⟨hc, -, ds, s₂, hds, hdata⟩ := h4 ha hb
      rw [uninitializedFillN_ok_faithful ops hf value _ s ds s₂ hds] at hdata
      exact ⟨hc, hdata⟩

/-- Instantiation of `resize_spec`: shrinking `[10, 20]` to length `1`
keeps `[10]` in place, and `Resize(5, 9)` on `[10, 20]` grows to exactly
capacity `5` with contents `[10, 20, 9, 9, 9]`. -/
theorem resize_spec_witness :
    Inv vNat12 ∧
    Resize natOps vNat12 1 () = .ok ({ data := [10], capacity := 2, alloc := true }, ()) ∧
    Size ({ data := [10], capacity := 2, alloc := true } : Vec Nat) = 1 ∧
    ResizeVal natOps vNat12 5 9 () =
      .ok ({ data := [10, 20, 9, 9, 9], capacity := 5, alloc := true }, ()) ∧
    ({ data := [10, 20, 9, 9, 9], capacity := 5, alloc := true } : Vec Nat).data =
      vNat12.data ++ List.replicate (5 - Size vNat12) 9 := by
  refine ⟨by decide, rfl, ?_, rfl, ?_⟩
  · exact (resize_spec.1 natOps vNat12 1 ()
      { data := [10], capacity := 2, alloc := true } () (by decide) rfl).1
  · exact ((resize_spec.2 natOps natOps_copyFaithful vNat12 5 9 ()
      { data := [10, 20, 9, 9, 9], capacity := 5, alloc := true } () (by decide) rfl).2.1
      (by decide)).2

/-- A failed `Resize(n)` leaves `size_`, `capacity_` and the storage
untouched; the surviving elements are the moved-from residues of the
originals, hence exactly the originals whenever moves preserve the
source. -/
theorem resize_err_spec (ops : ElemOps α σ) (v : Vec α) (n : Nat) (s : σ)
    (v' : Vec α) (s₁ : σ) (h : Resize ops v n s = .error (v', s₁)) :
    Size v' = Size v ∧ v'.capacity = v.capacity ∧ v'.alloc = v.alloc ∧
    (MovePreserving ops → v' = v) := by
  simp only [Resize, uninitializedMove] at h
  split at h
  · split at h
    · rename_i s₂ hds
      simp only [Except.error.injEq, Prod.mk.injEq] at h
      obtain ⟨h1, -⟩ := h
      subst h1
      exact ⟨by simp [Size], rfl, rfl, fun hm => by
        show Vec.mk _ _ _ = v
        rw [map_movedFrom_eq ops hm]⟩
    · simp at h
  · split at h
    · simp at h
    · split at h
      · rename_i s₂ hds
        simp only [Except.error.injEq, Prod.mk.injEq] at h
        obtain ⟨h1, -⟩ := h
        subst h1
        exact ⟨rfl, rfl, rfl, fun _ => rfl⟩
      · simp at h

/-- A failed `Resize(n, value)` has the same rollback shape. -/
theorem resizeVal_err_spec (ops : ElemOps α σ) (v : Vec α) (n : Nat) (value : α)
    (s : σ) (v' : Vec α) (s₁ : σ) (h : ResizeVal ops v n value s = .error (v', s₁)) :
    Size v' = Size v ∧ v'.capacity = v.capacity ∧ v'.alloc = v.alloc ∧
    (MovePreserving ops → v' = v) := by
  simp only [ResizeVal, uninitializedMove] at h
  split at h
  · split at h
    · rename_i s₂ hds
      simp only [Except.error.injEq, Prod.mk.injEq] at h
      obtain ⟨h1, -⟩ := h
      subst h1
      exact ⟨by simp [Size], rfl, rfl, fun hm => by
        show Vec.mk _ _ _ = v
        rw [map_movedFrom_eq ops hm]⟩
    · simp at h
  · split at h
    · simp at h
    · split at h
      · rename_i s₂ hds
        simp only [Except.error.injEq, Prod.mk.injEq] at h
        obtain ⟨h1, -⟩ := h
        subst h1
        exact ⟨rfl, rfl, rfl, fun _ => rfl⟩
      · simp at h

/-- A failed `PushBack(const T&)` has the same rollback shape. -/
theorem pushBack_err_spec (ops : ElemOps α σ) (v : Vec α) (value : α) (s : σ)
    (v' : Vec α) (s₁ : σ) (h : PushBack ops v value s = .error (v', s₁)) :
    Size v' = Size v ∧ v'.capacity = v.capacity ∧ v'.alloc = v.alloc ∧
    (MovePreserving ops → v' = v) := by
  simp only [PushBack, uninitializedMove] at h
  split at h
  · split at h
    · rename_i s₂ hc
      simp only [Except.error.injEq, Prod.mk.injEq] at h
      obtain ⟨h1, -⟩ := h
      subst h1
      exact ⟨by simp [Size], rfl, rfl, fun hm => by
        show Vec.mk _ _ _ = v
        rw [map_movedFrom_eq ops hm]⟩
    · simp at h
  · split at h
    · rename_i s₂ hc
      simp only [Except.error.injEq, Prod.mk.injEq] at h
      obtain ⟨h1, -⟩ := h
      subst h1
      exact ⟨rfl, rfl, rfl, fun _ => rfl⟩
    · simp at h

/-- A failed `EmplaceBack(args...)` has the same rollback shape. -/
theorem emplaceBack_err_spec (ops : ElemOps α σ) (mk : σ → Except σ (α × σ))
    (v : Vec α) (s : σ) (v' : Vec α) (s₁ : σ)
    (h : EmplaceBack ops mk v s = .error (v', s₁)) :
    Size v' = Size v ∧ v'.capacity = v.capacity ∧ v'.alloc = v.alloc ∧
    (MovePreserving ops → v' = v) := by
  simp only [EmplaceBack, uninitializedMove] at h
  split at h
  · split at h
    · rename_i s₂ hc
      simp only [Except.error.injEq, Prod.mk.injEq] at h
      obtain ⟨h1, -⟩ := h
      subst h1
      exact ⟨by simp [Size], rfl, rfl, fun hm => by
        show Vec.mk _ _ _ = v
        rw [map_movedFrom_eq ops hm]⟩
    · simp at h
  · split at h
    · rename_i s₂ hc
      simp only [Except.error.injEq, Prod.mk.injEq] at h
      obtain ⟨h1, -⟩ := h
      subst h1
      exact ⟨rfl, rfl, rfl, fun _ => rfl⟩
    · simp at h

/-- A one-element vector of the fallible, string-like element type, held at
full capacity so that the next `PushBack` grows. -/
def sv5 : Vec SElem :=
  { data := [⟨5⟩], capacity := 1, alloc := true }

/-- C1 as stated is false on the code: with the string-like fallible
element type (`countedOps`, construction budget `0`), pushing onto the full
vector `[5]` moves the element into the new region before copy-constructing
the new value; the copy throws, the new region is rolled back, and the
failure propagates with length and capacity intact — but the surviving
element is the moved-from residue `0`, not the original `5`, so the element
contents are not exactly as they were before the call. -/
theorem growth_failure_rollback_cex :
    PushBack (countedOps 0) sv5 ⟨7⟩ 0 =
      .error ({ data := [⟨0⟩], capacity := 1, alloc := true }, 0) ∧
    ¬ ({ data := [⟨0⟩], capacity := 1, alloc := true } : Vec SElem) = sv5 :=
  ⟨rfl, by decide⟩

/-- C1 (amended): when element construction into the new region fails
during `Resize`, `Resize(·, value)`, `PushBack`, or `EmplaceBack`, the
failure propagates and the vector's length, capacity, and storage are
exactly as before the call; the surviving elements are the moved-from
residues of the originals, so the element contents too are exactly as
before whenever the element type's move transfer leaves the source value
unchanged (`MovePreserving`, e.g. trivially copyable types).  `Reserve`
performs only moves, which cannot fail in the model, so it is total.  The
old storage is torn down only on the success path, after the new region is
fully constructed. -/
theorem growth_failure_rollback {α σ : Type} :
    (∀ (ops : ElemOps α σ) (v : Vec α) (n : Nat) (s : σ) (v' : Vec α) (s₁ : σ),
      Resize ops v n s = .error (v', s₁) →
      Size v' = Size v ∧ v'.capacity = v.capacity ∧ v'.alloc = v.alloc ∧
      (MovePreserving ops → v' = v)) ∧
    (∀ (ops : ElemOps α σ) (v : Vec α) (n : Nat) (value : α) (s : σ) (v' : Vec α) (s₁ : σ),
      ResizeVal ops v n value s = .error (v', s₁) →
      Size v' = Size v ∧ v'.capacity = v.capacity ∧ v'.alloc = v.alloc ∧
      (MovePreserving ops → v' = v)) ∧
    (∀ (ops : ElemOps α σ) (v : Vec α) (value : α) (s : σ) (v' : Vec α) (s₁ : σ),
      PushBack ops v value s = .error (v', s₁) →
      Size v' = Size v ∧ v'.capacity = v.capacity ∧ v'.alloc = v.alloc ∧
      (MovePreserving ops → v' = v)) ∧
    (∀ (ops : ElemOps α σ) (mk : σ → Except σ (α × σ)) (v : Vec α) (s : σ) (v' : Vec α) (s₁ : σ),
      EmplaceBack ops mk v s = .error (v', s₁) →
      Size v' = Size v ∧ v'.capacity = v.capacity ∧ v'.alloc = v.alloc ∧
      (MovePreserving ops → v' = v)) :=
  ⟨fun ops v n s v' s₁ h => resize_err_spec ops v n s v' s₁ h,
   fun ops v n value s v' s₁ h => resizeVal_err_spec ops v n value s v' s₁ h,
   fun ops v value s v' s₁ h => pushBack_err_spec ops v value s v' s₁ h,
   fun ops mk v s v' s₁ h => emplaceBack_err_spec ops mk v s v' s₁ h⟩

/-- Instantiation of `growth_failure_rollback`: with value-preserving moves
(`countedOpsKeep`, budget `0`), a growing `Resize` fails and leaves the
vector exactly `sv5`, its pre-call state. -/
theorem growth_failure_rollback_witness :
    MovePreserving (countedOpsKeep 0) ∧
    Resize (countedOpsKeep 0) sv5 2 0 = .error (sv5, 0) ∧
    sv5 = sv5 := by
  refine ⟨countedOpsKeep_movePreserving 0, rfl, ?_⟩
  exact (growth_failure_rollback.1 (countedOpsKeep 0) sv5 2 0 sv5 0 rfl).2.2.2
    (countedOpsKeep_movePreserving 0)

/-- A successful copy construction copies the live elements (characterised
by the `uninitialized_copy` run), the capacity, and allocates iff the
copied capacity is positive. -/
theorem copyCtor_ok_spec (ops : ElemOps α σ) (other : Vec α) (s : σ)
    (v' : Vec α) (s₁ : σ) (h : CopyCtor ops other s = .ok (v', s₁)) :
    (∃ bs s₂, uninitializedCopy ops other.data s = .ok (bs, s₂) ∧ v'.data = bs) ∧
    v'.capacity = other.capacity ∧ v'.alloc = allocate other.capacity := by
  simp only [CopyCtor] at h
  split at h
  · simp at h
  · rename_i bs s₂ hbs
    simp only [Except.ok.injEq, Prod.mk.injEq] at h
    obtain ⟨h1, -⟩ := h
    subst h1
    exact ⟨⟨bs, s₂, hbs, rfl⟩, rfl, rfl⟩

/-- C7: copy assignment behaves as building a temporary copy and swapping
with it: self-assignment (the identity check, `self = true`) is a no-op;
if copy construction of any element fails, the failure propagates and the
target is completely unchanged; on success the target holds exactly the
source's length, elements, and capacity (in a freshly copy-constructed
buffer, so no storage is shared). -/
theorem copy_assign_spec {α σ : Type} (ops : ElemOps α σ) (hf : CopyFaithful ops) :
    (∀ (v : Vec α) (s : σ), CopyAssign ops v v true s = .ok (v, s)) ∧
    (∀ (t other : Vec α) (s : σ) (v' : Vec α) (s₁ : σ),
      CopyAssign ops t other false s = .error (v', s₁) → v' = t) ∧
    (∀ (t other : Vec α) (s : σ) (v' : Vec α) (s₁ : σ),
      CopyAssign ops t other false s = .ok (v', s₁) →
      v'.data = other.data ∧ Size v' = Size other ∧ v'.capacity = other.capacity) := by
  refine ⟨fun v s => rfl, fun t other s v' s₁ h => ?_, fun t other s v' s₁ h => ?_⟩
  · simp only [CopyAssign] at h
    rw [if_neg (by simp)] at h
    split at h
    · rename_i s₂ hcc
      simp only [Except.error.injEq, Prod.mk.injEq] at h
      exact h.1.symm
    · simp at h
  · simp only [CopyAssign] at h
    rw [if_neg (by simp)] at h
    split at h
    · simp at h
    · rename_i tmp s₂ hcc
      simp only [Except.ok.injEq, Prod.mk.injEq] at h
      obtain ⟨h1, -⟩ := h
      subst h1
      obtain ⟨⟨bs, s₃, hbs, hd⟩, hc, -⟩ := copyCtor_ok_spec ops other s tmp s₂ hcc
      have hbs' : bs = other.data :=
        uninitializedCopy_ok_faithful ops hf other.data s bs s₃ hbs
      rw [hbs'] at hd
      exact ⟨hd, by simp [Size, hd], hc⟩

/-- Instantiation of `copy_assign_spec`: self-assignment of `[10, 20]` is a
no-op; assigning `[5]` with an always-failing element copy fails and leaves
the empty target unchanged; assigning `[10, 20]` into the empty vector with
plain `Nat` elements reproduces its contents. -/
theorem copy_assign_spec_witness :
    CopyAssign natOps vNat12 vNat12 true () = .ok (vNat12, ()) ∧
    CopyAssign (countedOpsKeep 0) MkEmpty sv5 false 0 = .error (MkEmpty, 0) ∧
    (MkEmpty : Vec SElem) = MkEmpty ∧
    CopyAssign natOps MkEmpty vNat12 false () = .ok (vNat12, ()) ∧
    vNat12.data = vNat12.data := by
  refine ⟨(copy_assign_spec natOps natOps_copyFaithful).1 vNat12 (), rfl, ?_, rfl, ?_⟩
  · exact (copy_assign_spec (countedOpsKeep 0) countedOpsKeep_zero_copyFaithful).2.1
      MkEmpty sv5 0 MkEmpty 0 rfl
  · exact ((copy_assign_spec natOps natOps_copyFaithful).2.2
      MkEmpty vNat12 () vNat12 () rfl).1

/-- The element `operator==` of `Nat` elements. -/
def natEqB (x y : Nat) : Bool :=
  x == y

/-- The element `operator<` of `Nat` elements. -/
def natLtB (x y : Nat) : Bool :=
  decide (x < y)

/-- Over equal-length ranges, `std::equal` returns true exactly on equal
contents. -/
theorem listEqual_iff_eq :
    ∀ (xs ys : List Nat), xs.length = ys.length →
      (listEqual natEqB xs ys = true ↔ xs = ys) := by
  intro xs
  induction xs with
  | nil =>
    intro ys hlen
    cases ys with
    | nil => simp [listEqual]
    | cons b bs => simp at hlen
  | cons a as ih =>
    intro ys hlen
    cases ys with
    | nil => simp at hlen
    | cons b bs =>
      simp only [List.length_cons, Nat.add_right_cancel_iff] at hlen
      simp only [listEqual, natEqB, Bool.and_eq_true, beq_iff_eq, List.cons.injEq]
      constructor
      · rintro ⟨h1, h2⟩
        exact ⟨h1, (ih bs hlen).mp h2⟩
      · rintro ⟨h1, h2⟩
        exact ⟨h1, (ih bs hlen).mpr h2⟩

/-- `std::lexicographical_compare` decides exactly the lexicographic strict
order `List.Lex (· < ·)`. -/
theorem lexCompare_iff_lex :
    ∀ (xs ys : List Nat),
      lexCompare natLtB xs ys = true ↔ List.Lex (· < ·) xs ys := by
  intro xs
  induction xs with
  | nil =>
    intro ys
    cases ys with
    | nil => simp [lexCompare]
    | cons b bs =>
      exact ⟨fun _ => List.Lex.nil, fun _ => rfl⟩
  | cons a as ih =>
    intro ys
    cases ys with
    | nil => simp [lexCompare]
    | cons b bs =>
      simp only [lexCompare]
      by_cases hab : a < b
      · rw [if_pos (by simp [natLtB, hab])]
        exact ⟨fun _ => List.Lex.rel hab, fun _ => rfl⟩
      · by_cases hba : b < a
        · rw [if_neg (by simp [natLtB, hab]), if_pos (by simp [natLtB, hba])]
          constructor
          · intro h
            cases h
          · intro h
            cases h with
            | cons h₁ => exact absurd rfl (Nat.ne_of_lt hba)
            | rel h₁ => exact absurd h₁ hab
        · have hab' : a = b := Nat.le_antisymm (Nat.not_lt.mp hba) (Nat.not_lt.mp hab)
          subst hab'
          rw [if_neg (by simp [natLtB, hab]), if_neg (by simp [natLtB, hba])]
          constructor
          · intro h
            exact List.Lex.cons ((ih bs).mp h)
          · intro h
            cases h with
            | cons h₁ => exact (ih bs).mpr h₁
            | rel h₁ => exact absurd h₁ hab

/-- C8: with `Nat` elements, `operator==` holds iff the lengths agree and
the contents are element-wise equal; `operator<` decides exactly the
lexicographic strict order on the live contents; the derived operators
satisfy `a != b ↔ ¬(a == b)`, `a > b ↔ b < a`, `a <= b ↔ ¬(b < a)`,
`a >= b ↔ ¬(a < b)`; and concretely `[1,2] < [1,2,3] < [1,3]` and
`[] < [1]`. -/
theorem compare_spec :
    (∀ a b : Vec Nat, vecEq natEqB a b = true ↔ Size a = Size b ∧ a.data = b.data) ∧
    (∀ a b : Vec Nat, vecLt natLtB a b = true ↔ List.Lex (· < ·) a.data b.data) ∧
    (∀ a b : Vec Nat, vecNe natEqB a b = !vecEq natEqB a b) ∧
    (∀ a b : Vec Nat, vecGt natLtB a b = vecLt natLtB b a) ∧
    (∀ a b : Vec Nat, vecLe natLtB a b = !vecLt natLtB b a) ∧
    (∀ a b : Vec Nat, vecGe natLtB a b = !vecLt natLtB a b) ∧
    (vecLt natLtB { data := [1, 2], capacity := 2, alloc := true }
        { data := [1, 2, 3], capacity := 3, alloc := true } = true ∧
      vecLt natLtB { data := [1, 2, 3], capacity := 3, alloc := true }
        { data := [1, 3], capacity := 2, alloc := true } = true ∧
      vecLt natLtB (MkEmpty : Vec Nat)
        { data := [1], capacity := 1, alloc := true } = true) := by
  refine ⟨fun a b => ?_, fun a b => lexCompare_iff_lex a.data b.data,
    fun a b => rfl, fun a b => rfl, fun a b => rfl, fun a b => rfl,
    by decide, by decide, by decide⟩
  simp only [vecEq, Bool.and_eq_true, beq_iff_eq]
  constructor
  · rintro ⟨h1, h2⟩
    exact ⟨h1, (listEqual_iff_eq a.data b.data h1).mp h2⟩
  · rintro ⟨h1, h2⟩
    exact ⟨h1, (listEqual_iff_eq a.data b.data h1).mpr h2⟩

/-- `Allocate` returns a non-null pointer exactly for positive sizes. -/
theorem allocate_true_iff (n : Nat) : allocate n = true ↔ 0 < n := by
  simp [allocate, Nat.pos_iff_ne_zero]

/-- The invariant transfers along field equalities. -/
theorem inv_transfer (v v' : Vec α) (h1 : Size v' = Size v)
    (h2 : v'.capacity = v.capacity) (h3 : v'.alloc = v.alloc) (hinv : Inv v) :
    Inv v' :=
  ⟨by rw [h1, h2]; exact hinv.1, fun ha => by rw [h2]; exact hinv.2 (h3 ▸ ha)⟩

theorem inv_mkEmpty : Inv (MkEmpty : Vec α) :=
  ⟨Nat.le_refl 0, fun hA => nomatch hA⟩

theorem inv_mkSized (ops : ElemOps α σ) (n : Nat) (s : σ) (v' : Vec α) (s₁ : σ)
    (h : MkSized ops n s = .ok (v', s₁)) : Inv v' := by
  simp only [MkSized] at h
  split at h
  · simp at h
  · rename_i xs s₂ hxs
    simp only [Except.ok.injEq, Prod.mk.injEq] at h
    obtain ⟨h1, -⟩ := h
    subst h1
    have hlen := uninitializedDefaultN_ok_length ops n s xs s₂ hxs
    exact ⟨by simp [Size, hlen], fun ha => (allocate_true_iff n).mp ha⟩

theorem inv_mkSizedVal (ops : ElemOps α σ) (n : Nat) (value : α) (s : σ)
    (v' : Vec α) (s₁ : σ) (h : MkSizedVal ops n value s = .ok (v', s₁)) : Inv v' := by
  simp only [MkSizedVal] at h
  split at h
  · simp at h
  · rename_i xs s₂ hxs
    simp only [Except.ok.injEq, Prod.mk.injEq] at h
    obtain ⟨h1, -⟩ := h
    subst h1
    have hlen := uninitializedFillN_ok_length ops value n s xs s₂ hxs
    exact ⟨by simp [Size, hlen], fun ha => (allocate_true_iff n).mp ha⟩

theorem inv_mkFromList (ops : ElemOps α σ) (xs : List α) (s : σ) (v' : Vec α)
    (s₁ : σ) (h : MkFromList ops xs s = .ok (v', s₁)) : Inv v' := by
  simp only [MkFromList] at h
  split at h
  · simp at h
  · rename_i bs s₂ hbs
    simp only [Except.ok.injEq, Prod.mk.injEq] at h
    obtain ⟨h1, -⟩ := h
    subst h1
    have hlen := uninitializedCopy_ok_length ops xs s bs s₂ hbs
    exact ⟨by simp [Size, hlen], fun ha => (allocate_true_iff xs.length).mp ha⟩

theorem inv_copyCtor (ops : ElemOps α σ) (other : Vec α) (s : σ) (v' : Vec α)
    (s₁ : σ) (hother : Inv other) (h : CopyCtor ops other s = .ok (v', s₁)) :
    Inv v' := by
  obtain ⟨⟨bs, s₂, hbs, hd⟩, hc, ha⟩ := copyCtor_ok_spec ops other s v' s₁ h
  have hlen := uninitializedCopy_ok_length ops other.data s bs s₂ hbs
  constructor
  · simp only [Size, hd, hlen, hc]
    exact hother.1
  · intro hA
    rw [hc]
    exact (allocate_true_iff other.capacity).mp (ha ▸ hA)

theorem inv_resize_ok (ops : ElemOps α σ) (v : Vec α) (n : Nat) (s : σ)
    (v' : Vec α) (s₁ : σ) (hinv : Inv v) (h : Resize ops v n s = .ok (v', s₁)) :
    Inv v' := by
  obtain ⟨hsz, hal⟩ := hinv
  obtain ⟨h1, h2, h3, h4⟩ := resize_ok_spec ops v n s v' s₁ hsz h
  rcases Nat.lt_or_ge v.capacity n with hgt | hle
  · obtain ⟨hc, ha, -⟩ := h2 hgt
    exact ⟨by rw [h1, hc], fun _ => by rw [hc]; omega⟩
  · rcases Nat.lt_or_ge n (Size v) with hlt | hge
    · have hv := h3 hlt
      subst hv
      refine ⟨?_, hal⟩
      simp only [Size, List.length_take] at hsz ⊢
      omega
    · obtain ⟨hc, ha, -⟩ := h4 hge hle
      exact ⟨by rw [h1, hc]; exact hle, fun hA => by rw [hc]; exact hal (ha ▸ hA)⟩

theorem inv_resizeVal_ok (ops : ElemOps α σ) (v : Vec α) (n : Nat) (value : α)
    (s : σ) (v' : Vec α) (s₁ : σ) (hinv : Inv v)
    (h : ResizeVal ops v n value s = .ok (v', s₁)) : Inv v' := by
  obtain ⟨hsz, hal⟩ := hinv
  obtain ⟨h1, h2, h3, h4⟩ := resizeVal_ok_spec ops v n value s v' s₁ hsz h
  rcases Nat.lt_or_ge v.capacity n with hgt | hle
  · obtain ⟨hc, ha, -⟩ := h2 hgt
    exact ⟨by rw [h1, hc], fun _ => by rw [hc]; omega⟩
  · rcases Nat.lt_or_ge n (Size v) with hlt | hge
    · have hv := h3 hlt
      subst hv
      refine ⟨?_, hal⟩
      simp only [Size, List.length_take] at hsz ⊢
      omega
    · obtain ⟨hc, ha, -⟩ := h4 hge hle
      exact ⟨by rw [h1, hc]; exact hle, fun hA => by rw [hc]; exact hal (ha ▸ hA)⟩

theorem inv_reserve (ops : ElemOps α σ) (v : Vec α) (n : Nat) (hinv : Inv v) :
    Inv (Reserve ops v n) := by
  by_cases hgt : n > v.capacity
  · simp only [Reserve, if_pos hgt, uninitializedMove]
    refine ⟨?_, fun _ => ?_⟩
    · show v.data.length ≤ n
      have := hinv.1
      simp only [Size] at this
      omega
    · show 0 < n
      omega
  · simp only [Reserve, if_neg hgt]
    exact hinv

theorem inv_shrinkToFit (ops : ElemOps α σ) (v : Vec α) (hinv : Inv v) :
    Inv (ShrinkToFit ops v) := by
  by_cases h0 : Size v = 0
  · simp only [ShrinkToFit]
    rw [if_pos (by simpa using h0)]
    exact ⟨Nat.le_refl 0, fun hA => nomatch hA⟩
  · by_cases hlt : Size v < v.capacity
    · simp only [ShrinkToFit, uninitializedMove]
      rw [if_neg (by simpa using h0), if_pos hlt]
      refine ⟨Nat.le_refl _, fun hA => ?_⟩
      show 0 < Size v
      omega
    · simp only [ShrinkToFit]
      rw [if_neg (by simpa using h0), if_neg hlt]
      exact hinv

theorem inv_clear (v : Vec α) (hinv : Inv v) : Inv (Clear v) := by
  by_cases ha : v.alloc = true
  · simp only [Clear, if_pos ha]
    exact ⟨Nat.zero_le _, hinv.2⟩
  · simp only [Clear, if_neg ha]
    exact hinv

theorem inv_pushBack_ok (ops : ElemOps α σ) (v : Vec α) (value : α) (s : σ)
    (v' : Vec α) (s₁ : σ) (hinv : Inv v) (h : PushBack ops v value s = .ok (v', s₁)) :
    Inv v' := by
  obtain ⟨⟨x, s₂, hc, hd⟩, hcap, hall⟩ := pushBack_ok_spec ops v value s v' s₁ h
  obtain ⟨hsz, hal⟩ := hinv
  have hsize : Size v' = Size v + 1 := by simp [Size, hd]
  by_cases hfull : Size v = v.capacity
  · rw [if_pos hfull] at hcap hall
    refine ⟨by rw [hsize, hcap]; omega, fun _ => by rw [hcap]; omega⟩
  · rw [if_neg hfull] at hcap hall
    refine ⟨by rw [hsize, hcap]; omega, fun hA => by
      rw [hcap]; exact hal (hall ▸ hA)⟩

/-- A successful `EmplaceBack` appends the newly constructed element,
increments the length, and applies the doubling growth rule exactly when
the vector was full. -/
theorem emplaceBack_ok_spec (ops : ElemOps α σ) (mk : σ → Except σ (α × σ))
    (v : Vec α) (s : σ) (v' : Vec α) (s₁ : σ)
    (h : EmplaceBack ops mk v s = .ok (v', s₁)) :
    (∃ x s₂, mk s = .ok (x, s₂) ∧ v'.data = v.data ++ [x]) ∧
    v'.capacity = (if Size v = v.capacity then max 1 (2 * v.capacity) else v.capacity) ∧
    v'.alloc = (if Size v = v.capacity then true else v.alloc) := by
  simp only [EmplaceBack, uninitializedMove] at h
  split at h
  · rename_i hfull
    have hfull' : Size v = v.capacity := by simpa using hfull
    split at h
    · simp at h
    · rename_i x sx hc
      simp only [Except.ok.injEq, Prod.mk.injEq] at h
      obtain ⟨h1, -⟩ := h
      subst h1
      refine ⟨⟨x, sx, hc, rfl⟩, ?_, ?_⟩
      · simp only [if_pos hfull']
        exact newCapacity_eq_max v.capacity
      · simp only [if_pos hfull', allocate]
        cases hcap : v.capacity <;> simp
  · rename_i hfull
    have hfull' : ¬ Size v = v.capacity := by simpa using hfull
    split at h
    · simp at h
    · rename_i x sx hc
      simp only [Except.ok.injEq, Prod.mk.injEq] at h
      obtain ⟨h1, -⟩ := h
      subst h1
      exact ⟨⟨x, sx, hc, rfl⟩, by simp [if_neg hfull'], by simp [if_neg hfull']⟩

theorem inv_emplaceBack_ok (ops : ElemOps α σ) (mk : σ → Except σ (α × σ))
    (v : Vec α) (s : σ) (v' : Vec α) (s₁ : σ) (hinv : Inv v)
    (h : EmplaceBack ops mk v s = .ok (v', s₁)) : Inv v' := by
  obtain ⟨⟨x, s₂, hc, hd⟩, hcap, hall⟩ := emplaceBack_ok_spec ops mk v s v' s₁ h
  obtain ⟨hsz, hal⟩ := hinv
  have hsize : Size v' = Size v + 1 := by simp [Size, hd]
  by_cases hfull : Size v = v.capacity
  · rw [if_pos hfull] at hcap hall
    refine ⟨by rw [hsize, hcap]; omega, fun _ => by rw [hcap]; omega⟩
  · rw [if_neg hfull] at hcap hall
    refine ⟨by rw [hsize, hcap]; omega, fun hA => by
      rw [hcap]; exact hal (hall ▸ hA)⟩

theorem inv_pushBackMove (ops : ElemOps α σ) (v : Vec α) (value : α)
    (hinv : Inv v) : Inv (PushBackMove ops v value) := by
  obtain ⟨hd, hcap, hall⟩ := pushBackMove_spec ops v value
  obtain ⟨hsz, hal⟩ := hinv
  have hsize : Size (PushBackMove ops v value) = Size v + 1 := by simp [Size, hd]
  by_cases hfull : Size v = v.capacity
  · rw [if_pos hfull] at hcap hall
    refine ⟨by rw [hsize, hcap]; omega, fun _ => by rw [hcap]; omega⟩
  · rw [if_neg hfull] at hcap hall
    refine ⟨by rw [hsize, hcap]; omega, fun hA => by
      rw [hcap]; exact hal (hall ▸ hA)⟩

theorem inv_popBack (v : Vec α) (hinv : Inv v) : Inv (PopBack v) := by
  by_cases hpos : Size v > 0
  · simp only [PopBack, if_pos hpos]
    refine ⟨?_, hinv.2⟩
    show v.data.dropLast.length ≤ v.capacity
    have := hinv.1
    simp only [Size] at this
    simp only [List.length_dropLast]
    omega
  · simp only [PopBack, if_neg hpos]
    exact hinv

theorem inv_copyAssign_ok (ops : ElemOps α σ) (t other : Vec α) (self : Bool)
    (s : σ) (v' : Vec α) (s₁ : σ) (ht : Inv t) (hother : Inv other)
    (h : CopyAssign ops t other self s = .ok (v', s₁)) : Inv v' := by
  simp only [CopyAssign] at h
  by_cases hself : self = true
  · rw [if_pos hself] at h
    simp only [Except.ok.injEq, Prod.mk.injEq] at h
    obtain ⟨h1, -⟩ := h
    subst h1
    exact ht
  · rw [if_neg hself] at h
    split at h
    · simp at h
    · rename_i tmp s₂ hcc
      simp only [Except.ok.injEq, Prod.mk.injEq] at h
      obtain ⟨h1, -⟩ := h
      subst h1
      exact inv_copyCtor ops other s tmp s₂ hother hcc

theorem inv_copyAssign_err (ops : ElemOps α σ) (t other : Vec α) (self : Bool)
    (s : σ) (v' : Vec α) (s₁ : σ) (ht : Inv t)
    (h : CopyAssign ops t other self s = .error (v', s₁)) : Inv v' := by
  simp only [CopyAssign] at h
  by_cases hself : self = true
  · rw [if_pos hself] at h
    simp at h
  · rw [if_neg hself] at h
    split at h
    · rename_i s₂ hcc
      simp only [Except.error.injEq, Prod.mk.injEq] at h
      obtain ⟨h1, -⟩ := h
      subst h1
      exact ht
    · simp at h

/-- C5: every mutating public operation preserves the representation
invariant: `0 ≤ size_ ≤ capacity_` (the lower bound is inherent in the
unsigned size type) and a storage allocation (non-null `data_`) is held
only when `capacity_ > 0`.  Both the normal and the exceptional outcome of
every fallible operation are covered; the purely reading members (`At`,
`Front`, `Back`, `Data`, the comparison operators and the iterator
accessors) do not modify the object. -/
theorem invariant_preserved {α σ : Type} :
    Inv (MkEmpty : Vec α) ∧
    (∀ (ops : ElemOps α σ) (n : Nat) (s : σ) (v' : Vec α) (s₁ : σ),
      MkSized ops n s = .ok (v', s₁) → Inv v') ∧
    (∀ (ops : ElemOps α σ) (n : Nat) (value : α) (s : σ) (v' : Vec α) (s₁ : σ),
      MkSizedVal ops n value s = .ok (v', s₁) → Inv v') ∧
    (∀ (ops : ElemOps α σ) (xs : List α) (s : σ) (v' : Vec α) (s₁ : σ),
      MkFromList ops xs s = .ok (v', s₁) → Inv v') ∧
    (∀ (ops : ElemOps α σ) (other : Vec α) (s : σ) (v' : Vec α) (s₁ : σ), Inv other →
      CopyCtor ops other s = .ok (v', s₁) → Inv v') ∧
    (∀ (v : Vec α), Inv v → Inv (MoveCtor v).1 ∧ Inv (MoveCtor v).2) ∧
    (∀ (ops : ElemOps α σ) (t other : Vec α) (self : Bool) (s : σ) (v' : Vec α) (s₁ : σ),
      Inv t → Inv other →
      (CopyAssign ops t other self s = .ok (v', s₁) → Inv v') ∧
      (CopyAssign ops t other self s = .error (v', s₁) → Inv v')) ∧
    (∀ (t other : Vec α) (self : Bool), Inv t → Inv other →
      Inv (MoveAssign t other self).1 ∧ Inv (MoveAssign t other self).2) ∧
    (∀ (a b : Vec α), Inv a → Inv b → Inv (Swap a b).1 ∧ Inv (Swap a b).2) ∧
    (∀ (ops : ElemOps α σ) (v : Vec α) (n : Nat) (s : σ) (v' : Vec α) (s₁ : σ), Inv v →
      (Resize ops v n s = .ok (v', s₁) → Inv v') ∧
      (Resize ops v n s = .error (v', s₁) → Inv v')) ∧
    (∀ (ops : ElemOps α σ) (v : Vec α) (n : Nat) (value : α) (s : σ) (v' : Vec α) (s₁ : σ),
      Inv v →
      (ResizeVal ops v n value s = .ok (v', s₁) → Inv v') ∧
      (ResizeVal ops v n value s = .error (v', s₁) → Inv v')) ∧
    (∀ (ops : ElemOps α σ) (v : Vec α) (n : Nat), Inv v → Inv (Reserve ops v n)) ∧
    (∀ (ops : ElemOps α σ) (v : Vec α), Inv v → Inv (ShrinkToFit ops v)) ∧
    (∀ (v : Vec α), Inv v → Inv (Clear v)) ∧
    (∀ (ops : ElemOps α σ) (v : Vec α) (value : α) (s : σ) (v' : Vec α) (s₁ : σ), Inv v →
      (PushBack ops v value s = .ok (v', s₁) → Inv v') ∧
      (PushBack ops v value s = .error (v', s₁) → Inv v')) ∧
    (∀ (ops : ElemOps α σ) (v : Vec α) (value : α), Inv v → Inv (PushBackMove ops v value)) ∧
    (∀ (ops : ElemOps α σ) (mk : σ → Except σ (α × σ)) (v : Vec α) (s : σ) (v' : Vec α) (s₁ : σ),
      Inv v →
      (EmplaceBack ops mk v s = .ok (v', s₁) → Inv v') ∧
      (EmplaceBack ops mk v s = .error (v', s₁) → Inv v')) ∧
    (∀ (v : Vec α), Inv v → Inv (PopBack v)) := by
  refine ⟨inv_mkEmpty,
    fun ops n s v' s₁ h => inv_mkSized ops n s v' s₁ h,
    fun ops n value s v' s₁ h => inv_mkSizedVal ops n value s v' s₁ h,
    fun ops xs s v' s₁ h => inv_mkFromList ops xs s v' s₁ h,
    fun ops other s v' s₁ hother h => inv_copyCtor ops other s v' s₁ hother h,
    fun v hv => ⟨hv, inv_mkEmpty⟩,
    fun ops t other self s v' s₁ ht hother =>
      ⟨fun h => inv_copyAssign_ok ops t other self s v' s₁ ht hother h,
       fun h => inv_copyAssign_err ops t other self s v' s₁ ht h⟩,
    fun t other self ht hother => ?_,
    fun a b ha hb => ⟨hb, ha⟩,
    fun ops v n s v' s₁ hv =>
      ⟨fun h => inv_resize_ok ops v n s v' s₁ hv h,
       fun h => by
        obtain ⟨h1, h2, h3, -⟩ := resize_err_spec ops v n s v' s₁ h
        exact inv_transfer v v' h1 h2 h3 hv⟩,
    fun ops v n value s v' s₁ hv =>
      ⟨fun h => inv_resizeVal_ok ops v n value s v' s₁ hv h,
       fun h => by
        obtain ⟨h1, h2, h3, -⟩ := resizeVal_err_spec ops v n value s v' s₁ h
        exact inv_transfer v v' h1 h2 h3 hv⟩,
    fun ops v n hv => inv_reserve ops v n hv,
    fun ops v hv => inv_shrinkToFit ops v hv,
    fun v hv => inv_clear v hv,
    fun ops v value s v' s₁ hv =>
      ⟨fun h => inv_pushBack_ok ops v value s v' s₁ hv h,
       fun h => by
        obtain ⟨h1, h2, h3, -⟩ := pushBack_err_spec ops v value s v' s₁ h
        exact inv_transfer v v' h1 h2 h3 hv⟩,
    fun ops v value hv => inv_pushBackMove ops v value hv,
    fun ops mk v s v' s₁ hv =>
      ⟨fun h => inv_emplaceBack_ok ops mk v s v' s₁ hv h,
       fun h => by
        obtain ⟨h1, h2, h3, -⟩ := emplaceBack_err_spec ops mk v s v' s₁ h
        exact inv_transfer v v' h1 h2 h3 hv⟩,
    fun v hv => inv_popBack v hv⟩
  by_cases hself : self = true
  · simp only [MoveAssign, if_pos hself]
    exact ⟨ht, hother⟩
  · simp only [MoveAssign, if_neg hself]
    exact ⟨hother, inv_mkEmpty⟩

/-- Instantiation of `invariant_preserved`: the invariant holds for
`[10, 20]` and is kept by `Clear` and by a growing `PushBack`. -/
theorem invariant_preserved_witness :
    Inv vNat12 ∧ Inv (Clear vNat12) ∧
    PushBack natOps vNat12 30 () =
      .ok ({ data := [10, 20, 30], capacity := 4, alloc := true }, ()) ∧
    Inv ({ data := [10, 20, 30], capacity := 4, alloc := true } : Vec Nat) := by
  obtain ⟨-, -, -, -, -, -, -, -, -, -, -, -, -, hClear, hPush, -⟩ :=
    invariant_preserved (α := Nat) (σ := Unit)
  exact ⟨by decide, hClear vNat12 (by decide), rfl,
    (hPush natOps vNat12 30 ()
      { data := [10, 20, 30], capacity := 4, alloc := true } () (by decide)).1 rfl⟩

end VectorSpec
